import Mathlib

/-!
Verification of the RPF-Extractor consolidation pipeline (src/extract.py).

This file gives a shallow embedding of the core of `extract.py`:
the classification tables, the per-file classification logic of
`move_files`, the collision-avoiding destination-name computation,
the size-verified copy, and the recursive extractor
`extract_rpf_recursive`, together with theorems about them.

Filesystem state is modelled explicitly: the two output buckets
`stream/` and `data/` are lists of file names (`FSState`), shared by
every recursion level exactly as the single on-disk pair under the
output root is.  The external decoder is modelled by a
`DecodeOutcome` attached to each container node, and per-file copy
integrity by a boolean oracle keyed on the source path (`Env`).
-/

/-- Model of Python `str.lower` on one character (ASCII range, which
covers every string the tables compare against). -/
def lowerChar (c : Char) : Char :=
  if 'A' ≤ c ∧ c ≤ 'Z' then Char.ofNat (c.toNat + 32) else c

/-- Model of Python `str.lower`. -/
def lowerStr (s : String) : String :=
  ⟨s.data.map lowerChar⟩

/-- Does the character list start with the given segment?  Helper for
the model of Python's substring test `a in b`. -/
def segAt : List Char → List Char → Bool
  | [], _ => true
  | _ :: _, [] => false
  | a :: as, b :: bs => a = b && segAt as bs

/-- Model of Python's substring containment `needle in hay`. -/
def hasSeg (needle : List Char) : List Char → Bool
  | [] => needle.isEmpty
  | c :: cs => segAt needle (c :: cs) || hasSeg needle cs

/-- The suffix of a character list after its last `'.'` (the whole
list when it has no dot): the last component of Python
`file.split('.')`. -/
def afterLastDot : List Char → List Char
  | [] => []
  | c :: cs =>
    if cs.contains '.' then afterLastDot cs
    else if c = '.' then cs else c :: cs

/-- Model of `file.lower().split('.')[-1]` from `move_files`. -/
def extOf (file : String) : String :=
  ⟨afterLastDot (lowerStr file).data⟩

/-- Index of the last occurrence of a character, if any. -/
def lastIdxOf (c : Char) : List Char → Option Nat
  | [] => none
  | a :: as =>
    match lastIdxOf c as with
    | some i => some (i + 1)
    | none => if a = c then some 0 else none

/-- Model of `os.path.splitext` on a plain file name (list form):
split at the last dot unless every character before it is a dot. -/
def splitextD (l : List Char) : List Char × List Char :=
  match lastIdxOf '.' l with
  | none => (l, [])
  | some d => if (l.take d).all (· = '.') then (l, []) else (l.take d, l.drop d)

/-- Model of `os.path.splitext` on a plain file name. -/
def splitext (p : String) : String × String :=
  ((splitextD p.data).1.asString, (splitextD p.data).2.asString)

/-- Decimal digit list of `n`, most significant first; structural fuel
so the kernel can evaluate it. -/
def decDigitsAux : Nat → Nat → List Char
  | 0, _ => []
  | fuel + 1, n =>
    if n < 10 then [Nat.digitChar n]
    else decDigitsAux fuel (n / 10) ++ [Nat.digitChar (n % 10)]

/-- Model of Python `f"{n}"` for a natural number. -/
def decRepr (n : Nat) : String :=
  ⟨decDigitsAux (n + 1) n⟩

/-- The candidate name `f"{base_name}_{counter}{extension}"` built by
the collision loop of `move_files`. -/
def mkName (base ext : String) (k : Nat) : String :=
  base ++ "_" ++ decRepr k ++ ext

/-- Model of `os.path.join` for the paths handled here. -/
def joinPath (a b : String) : String :=
  a ++ "/" ++ b

/-- The `STREAM_EXTENSIONS` table of extract.py. -/
def STREAM_EXTENSIONS : List String :=
  ["yft", "ytd", "ydr", "ydd", "ybn", "ymap", "ytyp",
   "awc", "cut", "rel", "ynv", "ycd", "ynd",
   "ypdb", "ysc", "yvr", "xtd"]

/-- The `DATA_EXTENSIONS` table of extract.py. -/
def DATA_EXTENSIONS : List String :=
  ["meta", "xml", "dat"]

/-- The `IMPORTANT_FOLDERS` table of extract.py. -/
def IMPORTANT_FOLDERS : List String :=
  ["vehicles", "weapons", "peds", "props"]

/-- The `IGNORE_FOLDERS` table of extract.py. -/
def IGNORE_FOLDERS : List String :=
  ["audio", "lang", "common.rpf",
   "x64a.rpf", "x64b.rpf", "x64c.rpf", "x64d.rpf", "x64e.rpf",
   "x64f.rpf", "x64g.rpf",
   "dlc_patch", "update", "platform"]

/-- `any(ignore.lower() in root.lower() for ignore in IGNORE_FOLDERS)`
from `move_files`. -/
def isIgnoredRoot (root : String) : Bool :=
  IGNORE_FOLDERS.any fun ig => hasSeg (lowerStr ig).data (lowerStr root).data

/-- `any(folder.lower() in root.lower() for folder in IMPORTANT_FOLDERS)`
from `move_files`. -/
def isImportantRoot (root : String) : Bool :=
  IMPORTANT_FOLDERS.any fun f => hasSeg (lowerStr f).data (lowerStr root).data

/-- The possible classifications of a file inside `move_files`:
skipped because its directory matches `IGNORE_FOLDERS` (the file is
not processed or counted at all), skipped as a raw `.rpf` container,
moved to the stream bucket, moved to the data bucket, or skipped for
having no recognised extension. -/
inductive FileClass where
  | ignoredDir
  | skippedContainer
  | stream
  | data
  | skippedOther
deriving DecidableEq, Repr

/-- The classification decision of `move_files` (lines 110-137 of
extract.py) for one file, as a pure function of its containing
directory path and its name. -/
def classify (root file : String) : FileClass :=
  if isIgnoredRoot root then .ignoredDir
  else if extOf file = "rpf" then .skippedContainer
  else if isImportantRoot root || STREAM_EXTENSIONS.contains (extOf file) then .stream
  else if DATA_EXTENSIONS.contains (extOf file) then .data
  else .skippedOther

/-- Move counters of `move_files`: the `moved_files` dict
`{'stream': 0, 'data': 0, 'skipped': 0}`. -/
structure MoveTally where
  stream : Nat
  data : Nat
  skipped : Nat
deriving DecidableEq, Repr

/-- The zero tally `move_files` starts from. -/
def zeroTally : MoveTally := ⟨0, 0, 0⟩

/-- Field-wise addition of tallies: the three `+=` lines with which
`extract_rpf_recursive` merges a nested call's counts into its own. -/
def tallyMerge (a b : MoveTally) : MoveTally :=
  ⟨a.stream + b.stream, a.data + b.data, a.skipped + b.skipped⟩

/-- Contents of the two shared output buckets `stream/` and `data/`
(lists of file names, in creation order). -/
structure FSState where
  streamFiles : List String
  dataFiles : List String
deriving DecidableEq, Repr

/-- Environment oracle: `mismatch src` is true when the size check
after copying the file at source path `src` fails
(`src_size != dest_size` in `move_files`). -/
structure Env where
  mismatch : String → Bool

/-- The collision loop of `move_files` (lines 141-145):
`while os.path.exists(dest_path): new_name = f"{base}_{counter}{ext}";
dest_path = ...; counter += 1`.  The Python loop is unbounded; `fuel`
is any bound on its iteration count (the caller passes
`existing.length + 2`, which theorem `mover_never_overwrites` shows is
always enough to reach a free name). -/
def resolveLoop (existing : List String) (base ext : String) :
    Nat → Nat → String → String
  | 0, _, cur => cur
  | fuel + 1, counter, cur =>
    if existing.contains cur then
      resolveLoop existing base ext fuel (counter + 1) (mkName base ext counter)
    else cur

/-- Destination-name computation of `move_files` (lines 139-145):
keep the source name unless it already exists in the destination
bucket, otherwise append `_1`, `_2`, ... before the extension until
the name is free. -/
def resolveDestName (existing : List String) (file : String) : String :=
  if existing.contains file then
    resolveLoop existing (splitext file).1 (splitext file).2
      (existing.length + 2) 1 file
  else file

/-- Per-file body of `move_files` (lines 116-179): classify the file,
resolve its destination name against the current bucket contents, copy
it (the copy always writes the destination file; `env.mismatch` tells
whether the post-copy size comparison then fails, in which case the
`except` branch counts the file as skipped and the walk continues). -/
def processFile (env : Env) (root : String)
    (acc : FSState × MoveTally) (file : String) : FSState × MoveTally :=
  let st := acc.1
  let t := acc.2
  let ext := extOf file
  let src := joinPath root file
  if ext = "rpf" then
    (st, { t with skipped := t.skipped + 1 })
  else if isImportantRoot root || STREAM_EXTENSIONS.contains ext then
    let name := resolveDestName st.streamFiles file
    if env.mismatch src then
      ({ st with streamFiles := st.streamFiles ++ [name] },
       { t with skipped := t.skipped + 1 })
    else
      ({ st with streamFiles := st.streamFiles ++ [name] },
       { t with stream := t.stream + 1 })
  else if DATA_EXTENSIONS.contains ext then
    let name := resolveDestName st.dataFiles file
    if env.mismatch src then
      ({ st with dataFiles := st.dataFiles ++ [name] },
       { t with skipped := t.skipped + 1 })
    else
      ({ st with dataFiles := st.dataFiles ++ [name] },
       { t with data := t.data + 1 })
  else
    (st, { t with skipped := t.skipped + 1 })

/-- One `(root, dirs, files)` step of the `os.walk` loop in
`move_files`: a directory whose path matches `IGNORE_FOLDERS` is
passed over entirely (`continue`), otherwise each of its files is
processed in order. -/
def processEntry (env : Env) (acc : FSState × MoveTally)
    (entry : String × List String) : FSState × MoveTally :=
  if isIgnoredRoot entry.1 then acc
  else entry.2.foldl (processFile env entry.1) acc

/-- `move_files(base_dir, stream_dir, data_dir)`: the walk is given as
the list of `(root, files)` pairs that `os.walk` yields.  Mirrors the
pre-scan early return on an empty tree, then folds the per-directory
step over the walk, threading the shared bucket state. -/
def move_files (env : Env) (st : FSState)
    (walk : List (String × List String)) : FSState × MoveTally :=
  let total := (walk.map (fun e => e.2.length)).sum
  if total = 0 then (st, zeroTally)
  else walk.foldl (processEntry env) (st, zeroTally)

/-- Integrity oracle under which every copy succeeds. -/
def env0 : Env := ⟨fun _ => false⟩

/-- Outcome of running the external decoder on one container and
locating its output directory (lines 194-249 of extract.py):
`ok walk` is a successful decode whose located output directory walks
to `walk`; the four failure constructors are the early-return branches
(`subprocess.TimeoutExpired`, `subprocess.CalledProcessError` with its
captured stderr and the fallback `str(e)` text, `FileNotFoundError`,
and the no-content case when no candidate output directory exists). -/
inductive DecodeOutcome where
  | ok (walk : List (String × List String))
  | timeout
  | exitFail (stderr : String) (excStr : String)
  | toolMissing
  | noContent
deriving Repr

/-- One container file as the environment presents it to the
extractor: its path, what decoding it yields, and the nested `.rpf`
container files discovered by scanning its decoded output. -/
inductive RpfNode : Type where
  | mk : String → DecodeOutcome → List RpfNode → RpfNode

/-- Path of a container node. -/
def RpfNode.path : RpfNode → String
  | .mk p _ _ => p

/-- The triple returned by `extract_rpf_recursive`
(`moved_files, error, successfully_extracted_rpfs`), together with the
resulting shared bucket state. -/
structure ExtractResult where
  fs : FSState
  result : Option MoveTally
  error : Option String
  absorbed : List String
deriving Repr

/-- `ensure_clean_dirs`: delete and recreate the two buckets, i.e.
reset the shared bucket state to empty. -/
def ensure_clean_dirs : FSState := ⟨[], []⟩

/-- A `None` move result contributes nothing when merged by the
caller (`if nested_result:`): the effective tally of an outcome. -/
def tallyOf : Option MoveTally → MoveTally
  | none => zeroTally
  | some t => t

mutual

/-- `extract_rpf_recursive(rpf_file, rpf_cli, output_dir, tool_type,
progress_callback, is_nested)` (lines 183-301 of extract.py) over the
shared bucket state `st`.  Decoder failures return immediately with
the corresponding error message, no tally and untouched buckets.  On
success the top-level call recreates the buckets via
`ensure_clean_dirs` while a nested call reuses the shared pair, the
decoded tree is consolidated by `move_files`, and each nested
container is extracted in discovery order with `is_nested=True`,
merging tallies and recording absorbed containers. -/
def extract_rpf_recursive (env : Env) (node : RpfNode) (st : FSState)
    (isNested : Bool) : ExtractResult :=
  match node with
  | .mk _p decode nested =>
    match decode with
    | .timeout =>
      ⟨st, none, some "Extraction timed out (5 minutes limit)", []⟩
    | .exitFail stderr exc =>
      ⟨st, none,
       some ("Extraction failed:\n" ++ (if stderr = "" then exc else stderr)),
       []⟩
    | .toolMissing =>
      ⟨st, none, some "Extraction tool not found. Please check the tool path.", []⟩
    | .noContent =>
      ⟨st, none,
       some "No extracted content found. The RPF file may be empty or in an unsupported format.",
       []⟩
    | .ok walk =>
      let st0 := if isNested then st else ensure_clean_dirs
      let moved := move_files env st0 walk
      let r := extractNested env nested moved.1 moved.2 []
      ⟨r.1, some r.2.1, none, r.2.2⟩
termination_by sizeOf node

/-- The `for idx, nested_rpf in enumerate(nested_rpfs)` loop of
`extract_rpf_recursive` (lines 273-299): extract each nested container
with `is_nested=True` over the shared buckets, merge its tally when it
returned one, and record it (followed by everything it recorded) as
absorbed when it moved at least one file into either bucket. -/
def extractNested (env : Env) (ns : List RpfNode) (st : FSState)
    (t : MoveTally) (acc : List String) :
    FSState × MoveTally × List String :=
  match ns with
  | [] => (st, t, acc)
  | n :: rest =>
    let r := extract_rpf_recursive env n st true
    match r.result with
    | none => extractNested env rest r.fs t acc
    | some nt =>
      let acc' :=
        if nt.stream > 0 || nt.data > 0 then acc ++ n.path :: r.absorbed
        else acc
      extractNested env rest r.fs (tallyMerge t nt) acc'
termination_by sizeOf ns

end

/-- Tally contribution of one processed file (pure projection of
`processFile`). -/
def fileDelta (env : Env) (root file : String) : MoveTally :=
  let ext := extOf file
  if ext = "rpf" then ⟨0, 0, 1⟩
  else if isImportantRoot root || STREAM_EXTENSIONS.contains ext then
    if env.mismatch (joinPath root file) then ⟨0, 0, 1⟩ else ⟨1, 0, 0⟩
  else if DATA_EXTENSIONS.contains ext then
    if env.mismatch (joinPath root file) then ⟨0, 0, 1⟩ else ⟨0, 1, 0⟩
  else ⟨0, 0, 1⟩

/-- Tally contribution of one walk entry. -/
def entryDelta (env : Env) (entry : String × List String) : MoveTally :=
  if isIgnoredRoot entry.1 then zeroTally
  else (entry.2.map (fileDelta env entry.1)).foldr tallyMerge zeroTally

/-- Tally of a whole walk, independent of any bucket state. -/
def walkTally (env : Env) (walk : List (String × List String)) : MoveTally :=
  (walk.map (entryDelta env)).foldr tallyMerge zeroTally

/-- `addsOnly s s'` holds when bucket state `s'` is bucket state `s`
with zero or more files appended to each bucket: nothing was deleted,
renamed or recreated. -/
def addsOnly (s s' : FSState) : Prop :=
  ∃ a b, s' = ⟨s.streamFiles ++ a, s.dataFiles ++ b⟩

mutual

/-- The move result (`moved_files` or `None`) that
`extract_rpf_recursive` returns for a container, computed directly
over the container tree: `None` on any decoder failure, otherwise the
consolidation tally of the decoded tree merged with every nested
container's contribution. -/
def nodeTally (env : Env) : RpfNode → Option MoveTally
  | .mk _ (.ok walk) ns => some (tallyMerge (walkTally env walk) (listTally env ns))
  | .mk _ .timeout _ => none
  | .mk _ (.exitFail _ _) _ => none
  | .mk _ .toolMissing _ => none
  | .mk _ .noContent _ => none
termination_by n => sizeOf n

/-- Summed tally contribution of a list of nested containers. -/
def listTally (env : Env) : List RpfNode → MoveTally
  | [] => zeroTally
  | n :: rest => tallyMerge (tallyOf (nodeTally env n)) (listTally env rest)
termination_by ns => sizeOf ns

end

mutual

/-- The `successfully_extracted_rpfs` list `extract_rpf_recursive`
returns for a container, computed directly over the container tree. -/
def nodeAbs (env : Env) : RpfNode → List String
  | .mk _ (.ok _) ns => listAbs env ns
  | .mk _ .timeout _ => []
  | .mk _ (.exitFail _ _) _ => []
  | .mk _ .toolMissing _ => []
  | .mk _ .noContent _ => []
termination_by n => sizeOf n

/-- Absorbed-container records contributed by a list of nested
containers, in discovery order: a container contributes its own path
followed by everything it recorded exactly when its move result
counted at least one stream or data file. -/
def listAbs (env : Env) : List RpfNode → List String
  | [] => []
  | n :: rest =>
    (match nodeTally env n with
     | some t => if t.stream > 0 || t.data > 0 then n.path :: nodeAbs env n else []
     | none => []) ++ listAbs env rest
termination_by ns => sizeOf ns

end

/-- Decimal value of a digit list, with accumulator (the inverse
reading of `decDigitsAux`, used to show decimal rendering is
injective). -/
def toNumA (a : Nat) (l : List Char) : Nat :=
  l.foldl (fun acc c => acc * 10 + (c.toNat - 48)) a

/-- The sequence of destination names the collision loop of
`move_files` tries, starting from counter value `counter` and current
candidate `cur`. -/
def loopCand (base ext : String) (counter : Nat) (cur : String) : Nat → String
  | 0 => cur
  | j + 1 => mkName base ext (counter + j)

/-- The move result the canonical nested invocation of
`extract_rpf_recursive` returns for a container (starting from empty
buckets; by `extract_char` the result is the same from any bucket
state). -/
def resultOf (env : Env) (n : RpfNode) : Option MoveTally :=
  (extract_rpf_recursive env n ensure_clean_dirs true).result

/-- The absorbed-container list the canonical nested invocation of
`extract_rpf_recursive` returns for a container. -/
def absorbedOf (env : Env) (n : RpfNode) : List String :=
  (extract_rpf_recursive env n ensure_clean_dirs true).absorbed

/-- What one nested container contributes to its caller's
`successfully_extracted_rpfs`: its own path followed by everything it
recorded, exactly when its returned tally counted at least one stream
or data file; nothing otherwise (including when it returned no tally
at all). -/
def childAbs (env : Env) (n : RpfNode) : List String :=
  match resultOf env n with
  | some t => if t.stream > 0 || t.data > 0 then n.path :: absorbedOf env n else []
  | none => []

/-- Integrity oracle that fails the size check exactly for source path
out/a.ydr. -/
def envM : Env := ⟨fun s => s == "out/a.ydr"⟩

theorem tallyMerge_zero (t : MoveTally) : tallyMerge t zeroTally = t := by
  cases t; simp [tallyMerge, zeroTally]

theorem zero_tallyMerge (t : MoveTally) : tallyMerge zeroTally t = t := by
  cases t; simp [tallyMerge, zeroTally]

theorem tallyMerge_assoc (a b c : MoveTally) :
    tallyMerge (tallyMerge a b) c = tallyMerge a (tallyMerge b c) := by
  cases a; cases b; cases c; simp [tallyMerge]; omega

theorem tallyMerge_comm (a b : MoveTally) :
    tallyMerge a b = tallyMerge b a := by
  cases a; cases b; simp [tallyMerge]; omega

theorem processFile_snd (env : Env) (root file : String)
    (acc : FSState × MoveTally) :
    (processFile env root acc file).2
      = tallyMerge acc.2 (fileDelta env root file) := by
  obtain ⟨st, t⟩ := acc
  cases t
  simp only [processFile, fileDelta, tallyMerge]
  split
  · simp
  · split
    · split <;> simp
    · split
      · split <;> simp
      · simp

theorem foldl_processFile_snd (env : Env) (root : String)
    (files : List String) (acc : FSState × MoveTally) :
    (files.foldl (processFile env root) acc).2
      = tallyMerge acc.2 ((files.map (fileDelta env root)).foldr tallyMerge zeroTally) := by
  induction files generalizing acc with
  | nil => simp [tallyMerge_zero]
  | cons f fs ih =>
    simp only [List.foldl_cons, List.map_cons, List.foldr_cons]
    rw [ih, processFile_snd, tallyMerge_assoc]

theorem processEntry_snd (env : Env) (acc : FSState × MoveTally)
    (entry : String × List String) :
    (processEntry env acc entry).2 = tallyMerge acc.2 (entryDelta env entry) := by
  simp only [processEntry, entryDelta]
  split
  · cases h : acc.2; simp [tallyMerge, zeroTally]
  · exact foldl_processFile_snd env entry.1 entry.2 acc

theorem foldl_processEntry_snd (env : Env)
    (walk : List (String × List String)) (acc : FSState × MoveTally) :
    (walk.foldl (processEntry env) acc).2
      = tallyMerge acc.2 (walkTally env walk) := by
  induction walk generalizing acc with
  | nil => simp [walkTally, tallyMerge_zero]
  | cons e es ih =>
    simp only [List.foldl_cons, walkTally, List.map_cons, List.foldr_cons]
    rw [ih, processEntry_snd, tallyMerge_assoc]
    simp [walkTally]

theorem move_files_snd (env : Env) (st : FSState)
    (walk : List (String × List String)) :
    (move_files env st walk).2 = walkTally env walk := by
  simp only [move_files]
  split
  · rename_i h
    -- an empty walk has zero tally
    have : walkTally env walk = zeroTally := by
      induction walk with
      | nil => simp [walkTally]
      | cons e es ih =>
        simp only [List.map_cons, List.sum_cons] at h
        have he : e.2.length = 0 := by omega
        have hes : (es.map (fun e => e.2.length)).sum = 0 := by omega
        simp only [walkTally, List.map_cons, List.foldr_cons]
        have he2 : e.2 = [] := List.eq_nil_of_length_eq_zero he
        have : entryDelta env e = zeroTally := by
          simp [entryDelta, he2]
        rw [this, zero_tallyMerge]
        have := ih hes
        simpa [walkTally] using this
    simp [this]
  · rw [foldl_processEntry_snd]
    simp [zero_tallyMerge]

theorem addsOnly_refl (s : FSState) : addsOnly s s :=
  ⟨[], [], by cases s; simp⟩

theorem addsOnly_trans {s s' s'' : FSState}
    (h : addsOnly s s') (h' : addsOnly s' s'') : addsOnly s s'' := by
  obtain ⟨a, b, rfl⟩ := h
  obtain ⟨c, d, rfl⟩ := h'
  exact ⟨a ++ c, b ++ d, by simp⟩

theorem processFile_addsOnly (env : Env) (root : String)
    (acc : FSState × MoveTally) (file : String) :
    addsOnly acc.1 (processFile env root acc file).1 := by
  obtain ⟨st, t⟩ := acc
  cases st with
  | mk sf df =>
    simp only [processFile]
    split
    · exact addsOnly_refl _
    · split
      · split
        · exact ⟨[resolveDestName sf file], [], by simp⟩
        · exact ⟨[resolveDestName sf file], [], by simp⟩
      · split
        · split
          · exact ⟨[], [resolveDestName df file], by simp⟩
          · exact ⟨[], [resolveDestName df file], by simp⟩
        · exact addsOnly_refl _

theorem foldl_processFile_addsOnly (env : Env) (root : String)
    (files : List String) (acc : FSState × MoveTally) :
    addsOnly acc.1 (files.foldl (processFile env root) acc).1 := by
  induction files generalizing acc with
  | nil => exact addsOnly_refl _
  | cons f fs ih =>
    exact addsOnly_trans (processFile_addsOnly env root acc f) (ih _)

theorem processEntry_addsOnly (env : Env) (acc : FSState × MoveTally)
    (entry : String × List String) :
    addsOnly acc.1 (processEntry env acc entry).1 := by
  simp only [processEntry]
  split
  · exact addsOnly_refl _
  · exact foldl_processFile_addsOnly env entry.1 entry.2 acc

theorem move_files_addsOnly (env : Env) (st : FSState)
    (walk : List (String × List String)) :
    addsOnly st (move_files env st walk).1 := by
  simp only [move_files]
  split
  · exact addsOnly_refl _
  · have : ∀ (w : List (String × List String)) (acc : FSState × MoveTally),
        addsOnly acc.1 (w.foldl (processEntry env) acc).1 := by
      intro w
      induction w with
      | nil => intro acc; exact addsOnly_refl _
      | cons e es ih =>
        intro acc
        exact addsOnly_trans (processEntry_addsOnly env acc e) (ih _)
    exact this walk (st, zeroTally)

mutual

theorem extract_addsOnly (env : Env) (n : RpfNode) (st : FSState) :
    addsOnly st (extract_rpf_recursive env n st true).fs := by
  match n with
  | .mk p d ns =>
    cases d with
    | ok walk =>
      simp only [extract_rpf_recursive]
      exact addsOnly_trans (move_files_addsOnly env st walk)
        (extractNested_addsOnly env ns _ _ _)
    | timeout => simp only [extract_rpf_recursive]; exact addsOnly_refl st
    | exitFail s e => simp only [extract_rpf_recursive]; exact addsOnly_refl st
    | toolMissing => simp only [extract_rpf_recursive]; exact addsOnly_refl st
    | noContent => simp only [extract_rpf_recursive]; exact addsOnly_refl st
termination_by sizeOf n

theorem extractNested_addsOnly (env : Env) (ns : List RpfNode)
    (st : FSState) (t : MoveTally) (acc : List String) :
    addsOnly st (extractNested env ns st t acc).1 := by
  match ns with
  | [] => simp only [extractNested]; exact addsOnly_refl st
  | n :: rest =>
    simp only [extractNested]
    have h1 : addsOnly st (extract_rpf_recursive env n st true).fs :=
      extract_addsOnly env n st
    split
    · exact addsOnly_trans h1 (extractNested_addsOnly env rest _ _ _)
    · exact addsOnly_trans h1 (extractNested_addsOnly env rest _ _ _)
termination_by sizeOf ns

end

mutual

theorem extract_char (env : Env) (n : RpfNode) (st : FSState) (b : Bool) :
    (extract_rpf_recursive env n st b).result = nodeTally env n ∧
    (extract_rpf_recursive env n st b).absorbed = nodeAbs env n := by
  match n with
  | .mk p d ns =>
    cases d with
    | ok walk =>
      simp only [extract_rpf_recursive, nodeTally, nodeAbs]
      have h := extractNested_char env ns (move_files env (if b then st else ensure_clean_dirs) walk).1
        (move_files env (if b then st else ensure_clean_dirs) walk).2 []
      constructor
      · rw [h.1, move_files_snd]
      · rw [h.2]
        simp
    | timeout => simp [extract_rpf_recursive, nodeTally, nodeAbs]
    | exitFail s e => simp [extract_rpf_recursive, nodeTally, nodeAbs]
    | toolMissing => simp [extract_rpf_recursive, nodeTally, nodeAbs]
    | noContent => simp [extract_rpf_recursive, nodeTally, nodeAbs]
termination_by sizeOf n

theorem extractNested_char (env : Env) (ns : List RpfNode) (st : FSState)
    (t : MoveTally) (acc : List String) :
    (extractNested env ns st t acc).2.1 = tallyMerge t (listTally env ns) ∧
    (extractNested env ns st t acc).2.2 = acc ++ listAbs env ns := by
  match ns with
  | [] =>
    simp only [extractNested, listTally, listAbs]
    exact ⟨(tallyMerge_zero t).symm, by simp⟩
  | n :: rest =>
    simp only [extractNested]
    have hn := extract_char env n st true
    rw [hn.1, hn.2]
    cases hres : nodeTally env n with
    | none =>
      simp only []
      have ih := extractNested_char env rest (extract_rpf_recursive env n st true).fs t acc
      refine ⟨?_, ?_⟩
      · rw [ih.1]
        simp only [listTally, hres, tallyOf, zero_tallyMerge]
      · rw [ih.2]
        simp only [listAbs, hres]
        simp
    | some nt =>
      simp only []
      have ih := extractNested_char env rest (extract_rpf_recursive env n st true).fs
        (tallyMerge t nt)
        (if nt.stream > 0 || nt.data > 0 then acc ++ n.path :: nodeAbs env n else acc)
      refine ⟨?_, ?_⟩
      · rw [ih.1]
        simp only [listTally, hres, tallyOf, tallyMerge_assoc]
      · rw [ih.2]
        simp only [listAbs, hres]
        split
        · simp
        · simp
termination_by sizeOf ns

end

theorem digitChar_toNat : ∀ d, d < 10 → (Nat.digitChar d).toNat = 48 + d := by
  decide

theorem toNumA_decDigitsAux :
    ∀ (fuel n a : Nat), n < 10 ^ fuel →
      toNumA a (decDigitsAux fuel n)
        = a * 10 ^ (decDigitsAux fuel n).length + n := by
  intro fuel
  induction fuel with
  | zero =>
    intro n a h
    have : n = 0 := by simpa using h
    subst this
    simp [decDigitsAux, toNumA]
  | succ fuel ih =>
    intro n a h
    by_cases hn : n < 10
    · simp only [decDigitsAux, if_pos hn, toNumA, List.foldl_cons, List.foldl_nil,
        List.length_cons, List.length_nil]
      rw [digitChar_toNat n hn, pow_one]
      omega
    · simp only [decDigitsAux, if_neg hn]
      have hdiv : n / 10 < 10 ^ fuel := by
        rw [Nat.div_lt_iff_lt_mul (by norm_num)]
        calc n < 10 ^ (fuel + 1) := h
        _ = 10 ^ fuel * 10 := by rw [pow_succ]
      have hmod : n % 10 < 10 := Nat.mod_lt n (by norm_num)
      simp only [toNumA, List.foldl_append, List.foldl_cons, List.foldl_nil,
        List.length_append, List.length_cons, List.length_nil]
      have := ih (n / 10) a hdiv
      simp only [toNumA] at this
      rw [this, digitChar_toNat _ hmod]
      have harith : 48 + n % 10 - 48 = n % 10 := by omega
      rw [harith]
      have h2 := Nat.div_add_mod n 10
      rw [pow_succ]
      nlinarith [h2]

theorem decRepr_injective : ∀ m n : Nat, decRepr m = decRepr n → m = n := by
  intro m n h
  have hb : ∀ k : Nat, k < 10 ^ (k + 1) := by
    intro k
    calc k < 10 ^ k := Nat.lt_pow_self (by norm_num) k
    _ ≤ 10 ^ (k + 1) := Nat.pow_le_pow_right (by norm_num) (Nat.le_succ k)
  have hm := toNumA_decDigitsAux (m + 1) m 0 (hb m)
  have hn := toNumA_decDigitsAux (n + 1) n 0 (hb n)
  have hd : decDigitsAux (m + 1) m = decDigitsAux (n + 1) n :=
    congrArg String.data h
  rw [hd] at hm
  omega

theorem splitextD_concat (l : List Char) :
    (splitextD l).1 ++ (splitextD l).2 = l := by
  unfold splitextD
  cases lastIdxOf '.' l with
  | none => simp
  | some d =>
    by_cases hall : (l.take d).all (· = '.') = true
    · simp [hall]
    · simp [hall, List.take_append_drop]

theorem splitext_concat (f : String) : (splitext f).1 ++ (splitext f).2 = f := by
  apply String.ext
  rw [String.data_append]
  simpa [splitext, List.asString] using splitextD_concat f.data

theorem mkName_data (b e : String) (k : Nat) :
    (mkName b e k).data = b.data ++ '_' :: (decRepr k).data ++ e.data := by
  simp only [mkName]
  rw [String.data_append, String.data_append, String.data_append]
  simp

theorem mkName_ne_concat (b e : String) (k : Nat) : mkName b e k ≠ b ++ e := by
  intro h
  have hl := congrArg (fun s => s.data.length) h
  simp only [mkName_data, String.data_append, List.length_append,
    List.length_cons] at hl
  omega

theorem mkName_inj (b e : String) (j k : Nat) (h : mkName b e j = mkName b e k) :
    j = k := by
  apply decRepr_injective
  have hd := congrArg String.data h
  rw [mkName_data, mkName_data] at hd
  apply String.ext
  have h1 : b.data ++ '_' :: ((decRepr j).data ++ e.data)
      = b.data ++ '_' :: ((decRepr k).data ++ e.data) := by
    simpa using hd
  have h2 := List.append_cancel_left h1
  have h3 : (decRepr j).data ++ e.data = (decRepr k).data ++ e.data := by
    simpa using h2
  exact List.append_cancel_right h3

theorem loopCand_shift (base ext : String) (counter : Nat) (cur : String)
    (j : Nat) :
    loopCand base ext (counter + 1) (mkName base ext counter) j
      = loopCand base ext counter cur (j + 1) := by
  cases j with
  | zero => simp [loopCand]
  | succ i =>
    simp only [loopCand]
    congr 1
    omega

theorem resolveLoop_free (existing : List String) (base ext : String) :
    ∀ (fuel counter : Nat) (cur : String),
      (∃ j, j < fuel ∧ loopCand base ext counter cur j ∉ existing) →
      resolveLoop existing base ext fuel counter cur ∉ existing := by
  intro fuel
  induction fuel with
  | zero =>
    intro counter cur h
    obtain ⟨j, hj, _⟩ := h
    omega
  | succ fuel ih =>
    intro counter cur h
    simp only [resolveLoop]
    by_cases hc : existing.contains cur
    · rw [if_pos hc]
      apply ih
      obtain ⟨j, hj, hfree⟩ := h
      cases j with
      | zero =>
        exfalso
        apply hfree
        simpa [loopCand] using hc
      | succ j' =>
        refine ⟨j', by omega, ?_⟩
        rw [loopCand_shift base ext counter cur j']
        exact hfree
    · rw [if_neg hc]
      simpa using hc

theorem exists_free_cand (existing : List String) (base ext file : String)
    (hfe : file = base ++ ext) :
    ∃ j, j < existing.length + 2 ∧ loopCand base ext 1 file j ∉ existing := by
  by_contra hcon
  push_neg at hcon
  have hall : ∀ j, j < existing.length + 2 → loopCand base ext 1 file j ∈ existing := by
    intro j hj
    exact hcon j hj
  have hinj : Set.InjOn (loopCand base ext 1 file)
      ↑(Finset.range (existing.length + 2)) := by
    intro i _ j _ hij
    cases i with
    | zero =>
      cases j with
      | zero => rfl
      | succ j' =>
        exfalso
        simp only [loopCand] at hij
        exact mkName_ne_concat base ext (1 + j') (by rw [← hij, hfe])
    | succ i' =>
      cases j with
      | zero =>
        exfalso
        simp only [loopCand] at hij
        exact mkName_ne_concat base ext (1 + i') (by rw [hij, hfe])
      | succ j' =>
        simp only [loopCand] at hij
        have := mkName_inj base ext (1 + i') (1 + j') hij
        omega
  have hcard : ((Finset.range (existing.length + 2)).image
      (loopCand base ext 1 file)).card = existing.length + 2 := by
    rw [Finset.card_image_of_injOn hinj, Finset.card_range]
  have hsub : (Finset.range (existing.length + 2)).image (loopCand base ext 1 file)
      ⊆ existing.toFinset := by
    intro x hx
    rw [Finset.mem_image] at hx
    obtain ⟨i, hi, rfl⟩ := hx
    rw [List.mem_toFinset]
    exact hall i (Finset.mem_range.mp hi)
  have h1 := Finset.card_le_card hsub
  have h2 := List.toFinset_card_le existing
  omega

theorem resolveDestName_not_mem (existing : List String) (file : String) :
    resolveDestName existing file ∉ existing := by
  simp only [resolveDestName]
  by_cases hc : existing.contains file
  · rw [if_pos hc]
    apply resolveLoop_free
    exact exists_free_cand existing (splitext file).1 (splitext file).2 file
      (splitext_concat file).symm
  · rw [if_neg hc]
    simpa using hc

theorem lowerChar_ne_dot (c : Char) (h : c ≠ '.') : lowerChar c ≠ '.' := by
  unfold lowerChar
  split
  · rename_i hc
    intro heq
    have h1 : 65 ≤ c.toNat := hc.1
    have h2 : c.toNat ≤ 90 := hc.2
    have h3 : (Char.ofNat (c.toNat + 32)).toNat = c.toNat + 32 := by
      unfold Char.ofNat
      rw [dif_pos]
      · rfl
      · left; omega
    have h4 := congrArg Char.toNat heq
    rw [h3] at h4
    have h5 : ('.' : Char).toNat = 46 := by decide
    omega
  · exact h

theorem afterLastDot_of_no_dot : ∀ l : List Char, '.' ∉ l → afterLastDot l = l := by
  intro l h
  cases l with
  | nil => rfl
  | cons c cs =>
    have hc : c ≠ '.' := fun hh => h (hh ▸ List.mem_cons_self c cs)
    have hcs : ¬ cs.contains '.' = true := by
      simpa using fun hh : '.' ∈ cs => h (List.mem_cons_of_mem c hh)
    simp only [afterLastDot, if_neg hcs]
    rw [if_neg hc]

theorem afterLastDot_append (a b : List Char) (hb : '.' ∉ b) :
    afterLastDot (a ++ '.' :: b) = b := by
  induction a with
  | nil =>
    simp [afterLastDot, hb]
  | cons x a' ih =>
    have hcont : (a' ++ '.' :: b).contains '.' = true := by simp
    simp [afterLastDot, hcont, ih]

theorem extOf_of_no_dot (f : String) (h : '.' ∉ f.data) : extOf f = lowerStr f := by
  have hmap : '.' ∉ f.data.map lowerChar := by
    intro hmem
    rw [List.mem_map] at hmem
    obtain ⟨c, hc, hlc⟩ := hmem
    by_cases hcd : c = '.'
    · exact h (hcd ▸ hc)
    · exact lowerChar_ne_dot c hcd hlc
  simp only [extOf, lowerStr]
  exact congrArg String.mk (afterLastDot_of_no_dot _ hmap)

theorem extOf_append_dot (s t : String) (h : '.' ∉ t.data) :
    extOf (s ++ "." ++ t) = lowerStr t := by
  have hmap : '.' ∉ t.data.map lowerChar := by
    intro hmem
    rw [List.mem_map] at hmem
    obtain ⟨c, hc, hlc⟩ := hmem
    by_cases hcd : c = '.'
    · exact h (hcd ▸ hc)
    · exact lowerChar_ne_dot c hcd hlc
  simp only [extOf, lowerStr]
  apply congrArg String.mk
  have hdata : (s ++ "." ++ t).data = s.data ++ '.' :: t.data := by
    rw [String.data_append, String.data_append]
    have hdot : ("." : String).data = ['.'] := rfl
    rw [hdot, List.append_assoc]
    rfl
  rw [hdata]
  have hld : lowerChar '.' = '.' := by decide
  have hmapd : (s.data ++ '.' :: t.data).map lowerChar
      = s.data.map lowerChar ++ '.' :: t.data.map lowerChar := by
    rw [List.map_append, List.map_cons, hld]
  rw [hmapd]
  exact afterLastDot_append _ _ hmap

theorem foldl_processEntry_empty (env : Env) :
    ∀ (walk : List (String × List String)) (acc : FSState × MoveTally),
      (∀ e ∈ walk, e.2 = ([] : List String)) →
      walk.foldl (processEntry env) acc = acc := by
  intro walk
  induction walk with
  | nil => intro acc _; rfl
  | cons e es ih =>
    intro acc h
    have he : e.2 = [] := h e (List.mem_cons_self _ _)
    have hstep : processEntry env acc e = acc := by
      simp only [processEntry, he]
      split <;> rfl
    rw [List.foldl_cons, hstep]
    exact ih acc fun x hx => h x (List.mem_cons_of_mem e hx)

theorem foldr_tallyMerge_init (l : List MoveTally) (t : MoveTally) :
    l.foldr tallyMerge t = tallyMerge (l.foldr tallyMerge zeroTally) t := by
  induction l with
  | nil => simp [zero_tallyMerge]
  | cons x xs ih => simp only [List.foldr_cons, ih, tallyMerge_assoc]

theorem walkTally_append (env : Env) (w v : List (String × List String)) :
    walkTally env (w ++ v) = tallyMerge (walkTally env w) (walkTally env v) := by
  simp only [walkTally, List.map_append, List.foldr_append]
  rw [foldr_tallyMerge_init]

theorem classify_stream_elim (root file : String)
    (h : classify root file = .stream) :
    isIgnoredRoot root = false ∧ extOf file ≠ "rpf" ∧
      (isImportantRoot root || STREAM_EXTENSIONS.contains (extOf file)) = true := by
  unfold classify at h
  split_ifs at h
  all_goals simp_all

theorem classify_data_elim (root file : String)
    (h : classify root file = .data) :
    isIgnoredRoot root = false ∧ extOf file ≠ "rpf" ∧
      (isImportantRoot root || STREAM_EXTENSIONS.contains (extOf file)) = false ∧
      DATA_EXTENSIONS.contains (extOf file) = true := by
  unfold classify at h
  split_ifs at h
  all_goals simp_all

theorem fileDelta_mismatch (env : Env) (root file : String)
    (hcl : classify root file = .stream ∨ classify root file = .data)
    (hm : env.mismatch (joinPath root file) = true) :
    fileDelta env root file = ⟨0, 0, 1⟩ := by
  cases hcl with
  | inl h =>
    obtain ⟨_, h2, h3⟩ := classify_stream_elim root file h
    simp [fileDelta, h2, h3, hm]
  | inr h =>
    obtain ⟨_, h2, h3, h4⟩ := classify_data_elim root file h
    simp [fileDelta, h2, h3, h4, hm]

theorem classify_not_ignored (root file : String)
    (hcl : classify root file = .stream ∨ classify root file = .data) :
    isIgnoredRoot root = false := by
  cases hcl with
  | inl h => exact (classify_stream_elim root file h).1
  | inr h => exact (classify_data_elim root file h).1

theorem walkTally_cons (env : Env) (e : String × List String)
    (w : List (String × List String)) :
    walkTally env (e :: w) = tallyMerge (entryDelta env e) (walkTally env w) := by
  simp only [walkTally, List.map_cons, List.foldr_cons]

theorem foldr_tallyMerge_split (g : String → MoveTally)
    (l₁ l₂ : List String) (x : String) :
    ((l₁ ++ x :: l₂).map g).foldr tallyMerge zeroTally
      = tallyMerge ((l₁.map g).foldr tallyMerge zeroTally)
          (tallyMerge (g x) ((l₂.map g).foldr tallyMerge zeroTally)) := by
  simp only [List.map_append, List.map_cons, List.foldr_append, List.foldr_cons]
  rw [foldr_tallyMerge_init]

theorem foldr_tallyMerge_map_append (g : String → MoveTally) (l₁ l₂ : List String) :
    ((l₁ ++ l₂).map g).foldr tallyMerge zeroTally
      = tallyMerge ((l₁.map g).foldr tallyMerge zeroTally)
          ((l₂.map g).foldr tallyMerge zeroTally) := by
  simp only [List.map_append, List.foldr_append]
  rw [foldr_tallyMerge_init]

theorem tallyMerge_shuffle (a b c d s : MoveTally) :
    tallyMerge a (tallyMerge (tallyMerge b (tallyMerge s c)) d)
      = tallyMerge (tallyMerge a (tallyMerge (tallyMerge b c) d)) s := by
  cases a; cases b; cases c; cases d; cases s
  simp [tallyMerge]
  omega

theorem resultOf_eq (env : Env) (n : RpfNode) :
    resultOf env n = nodeTally env n :=
  (extract_char env n ensure_clean_dirs true).1

theorem absorbedOf_eq (env : Env) (n : RpfNode) :
    absorbedOf env n = nodeAbs env n :=
  (extract_char env n ensure_clean_dirs true).2

theorem listAbs_eq_flatten (env : Env) (ns : List RpfNode) :
    listAbs env ns = (ns.map (childAbs env)).flatten := by
  induction ns with
  | nil => simp [listAbs]
  | cons n rest ih =>
    simp only [listAbs, List.map_cons, List.flatten_cons]
    rw [ih]
    congr 1
    simp only [childAbs, resultOf_eq, absorbedOf_eq]

/-- C1 counterexample: a file whose extension is the container
extension rpf, and a file under a folder that matches both an
important-folder and an ignored-folder name, are not classified
Stream even though their containing folder path matches an
important-folder name — the claim's "regardless of the file's
extension" fails. -/
theorem important_folder_rpf_counterexample :
    isImportantRoot "vehicles" = true ∧
    classify "vehicles" "a.rpf" ≠ .stream ∧
    isImportantRoot "vehicles/audio" = true ∧
    classify "vehicles/audio" "a.txt" ≠ .stream := by
  decide

/-- C1 (amended): for every file whose containing folder path matches
an important-folder name (case-insensitive), does not match any
ignored-folder name, and whose extension is not the container
extension rpf, classification returns Stream regardless of the
extension — in particular even when the extension is not in
STREAM_EXTENSIONS. -/
theorem important_folder_classification_amended :
    ∀ root file : String, isImportantRoot root = true →
      isIgnoredRoot root = false → extOf file ≠ "rpf" →
      classify root file = .stream := by
  intro root file h1 h2 h3
  simp [classify, h1, h2, h3]

theorem important_folder_classification_amended_witness :
    isImportantRoot "vehicles" = true ∧ isIgnoredRoot "vehicles" = false ∧
    extOf "a.qqq" ≠ "rpf" ∧ classify "vehicles" "a.qqq" = .stream :=
  ⟨by decide, by decide, by decide,
   important_folder_classification_amended "vehicles" "a.qqq"
     (by decide) (by decide) (by decide)⟩

/-- C2: the mover never overwrites: with x.ydr already in the stream
bucket, moving another x.ydr stores it as x_1.ydr; with x.ydr and
x_1.ydr present, a third becomes x_2.ydr; and in general the name the
collision loop settles on is never one that already exists in the
destination bucket. -/
theorem mover_never_overwrites :
    (processFile env0 "d" (⟨["x.ydr"], []⟩, zeroTally) "x.ydr").1.streamFiles
      = ["x.ydr", "x_1.ydr"] ∧
    (processFile env0 "d" (⟨["x.ydr", "x_1.ydr"], []⟩, zeroTally) "x.ydr").1.streamFiles
      = ["x.ydr", "x_1.ydr", "x_2.ydr"] ∧
    ∀ (existing : List String) (file : String),
      resolveDestName existing file ∉ existing :=
  ⟨by decide, by decide, resolveDestName_not_mem⟩

/-- C3: bucket ownership.  First part: a nested extraction call only
ever appends files to the shared stream and data buckets — it never
deletes or recreates them, whatever bucket contents it starts from.
Second part: a top-level call on a successfully decoded container
produces the same final buckets whatever buckets existed before,
because it recreates the pair fresh (ensure_clean_dirs) before any
consolidation or recursion; nested calls share that single pair. -/
theorem bucket_ownership :
    (∀ (env : Env) (n : RpfNode) (st : FSState),
        addsOnly st (extract_rpf_recursive env n st true).fs) ∧
    (∀ (env : Env) (p : String) (walk : List (String × List String))
        (ns : List RpfNode) (st : FSState),
        (extract_rpf_recursive env (.mk p (.ok walk) ns) st false).fs
          = (extract_rpf_recursive env (.mk p (.ok walk) ns) ensure_clean_dirs false).fs) := by
  constructor
  · exact extract_addsOnly
  · intro env p walk ns st
    simp [extract_rpf_recursive]

/-- C4: when the decoder exits with non-zero status and non-empty
diagnostics, the extraction call (top-level or nested) returns
immediately: the error carries the decoder's stderr verbatim, the move
result is None — an effective tally of zero — the absorbed list is
empty, and the bucket state is exactly what it was before the call. -/
theorem decoder_exit_failure_outcome :
    ∀ (env : Env) (p stderr exc : String) (ns : List RpfNode)
      (st : FSState) (b : Bool), stderr ≠ "" →
      extract_rpf_recursive env (.mk p (.exitFail stderr exc) ns) st b
        = ⟨st, none, some ("Extraction failed:\n" ++ stderr), []⟩ ∧
      tallyOf (extract_rpf_recursive env
        (.mk p (.exitFail stderr exc) ns) st b).result = zeroTally := by
  intro env p stderr exc ns st b h
  refine ⟨?_, ?_⟩
  · simp [extract_rpf_recursive, h]
  · simp [extract_rpf_recursive, tallyOf]

theorem decoder_exit_failure_outcome_witness :
    ("boom" : String) ≠ "" ∧
    extract_rpf_recursive env0
        (.mk "a.rpf" (.exitFail "boom" "err") []) ⟨["s.ydr"], ["d.meta"]⟩ false
      = ⟨⟨["s.ydr"], ["d.meta"]⟩, none, some ("Extraction failed:\n" ++ "boom"), []⟩ :=
  ⟨by decide,
   (decoder_exit_failure_outcome env0 "a.rpf" "boom" "err" []
     ⟨["s.ydr"], ["d.meta"]⟩ false (by decide)).1⟩

/-- C5 counterexample: a file under the ignored folder audio is never
moved, but its processing is not counted either — the whole walk
returns the zero tally, so the skipped count is 0, not 1 as the claim
states. -/
theorem ignored_subtree_skip_count_counterexample :
    (move_files env0 ⟨[], []⟩ [("audio", ["a.ydr"])]).2 = zeroTally ∧
    (move_files env0 ⟨[], []⟩ [("audio", ["a.ydr"])]).2.skipped ≠ 1 := by
  decide

/-- C5 (amended): a directory whose path matches an ignored-folder
name (case-insensitive) is passed over entirely by the consolidation
pass: none of its files is moved into either bucket and none of them
is counted — dropping the entry changes neither the buckets nor the
tally, so the final skippedCount does not include files of the
ignored subtree. -/
theorem ignored_subtree_excluded_amended :
    ∀ (env : Env) (st : FSState) (root : String) (files : List String)
      (walk : List (String × List String)), isIgnoredRoot root = true →
      move_files env st ((root, files) :: walk) = move_files env st walk := by
  intro env st root files walk h
  simp only [move_files, List.map_cons, List.sum_cons]
  have hskip : ∀ acc : FSState × MoveTally,
      processEntry env acc (root, files) = acc := by
    intro acc
    simp [processEntry, h]
  by_cases h0 : ((walk.map fun e => e.2.length).sum) = 0
  · rw [if_pos h0]
    by_cases hf : files.length = 0
    · rw [if_pos (by omega)]
    · rw [if_neg (by omega), List.foldl_cons, hskip]
      apply foldl_processEntry_empty
      intro e he
      have hz : e.2.length = 0 :=
        (List.sum_eq_zero_iff.mp h0) e.2.length
          (List.mem_map_of_mem _ he)
      exact List.eq_nil_of_length_eq_zero hz
  · rw [if_neg h0, if_neg (by omega), List.foldl_cons, hskip]

theorem ignored_subtree_excluded_amended_witness :
    isIgnoredRoot "audio" = true ∧
    move_files env0 ⟨[], []⟩ [("audio", ["a.ydr"])] = move_files env0 ⟨[], []⟩ [] :=
  ⟨by decide,
   ignored_subtree_excluded_amended env0 ⟨[], []⟩ "audio" ["a.ydr"] [] (by decide)⟩

/-- C6: a file whose post-copy size check fails is counted as skipped
with the skip counter incremented by exactly 1, and the walk
continues: the tally of the whole walk equals the tally of the same
walk without that file, plus exactly one skip — every other file,
before and after it, still contributes as before. -/
theorem size_mismatch_single_skip :
    ∀ (env : Env) (st : FSState) (root file : String)
      (pre post : List (String × List String)) (f₁ f₂ : List String),
      (classify root file = .stream ∨ classify root file = .data) →
      env.mismatch (joinPath root file) = true →
      (move_files env st (pre ++ (root, f₁ ++ file :: f₂) :: post)).2
        = tallyMerge (move_files env st (pre ++ (root, f₁ ++ f₂) :: post)).2
            ⟨0, 0, 1⟩ := by
  intro env st root file pre post f₁ f₂ hcl hm
  rw [move_files_snd, move_files_snd]
  rw [walkTally_append, walkTally_append, walkTally_cons, walkTally_cons]
  have hnig := classify_not_ignored root file hcl
  have hfd := fileDelta_mismatch env root file hcl hm
  have h1 : entryDelta env (root, f₁ ++ file :: f₂)
      = tallyMerge ((f₁.map (fileDelta env root)).foldr tallyMerge zeroTally)
          (tallyMerge ⟨0, 0, 1⟩
            ((f₂.map (fileDelta env root)).foldr tallyMerge zeroTally)) := by
    simp only [entryDelta, hnig, Bool.false_eq_true, if_false]
    rw [foldr_tallyMerge_split, hfd]
  have h2 : entryDelta env (root, f₁ ++ f₂)
      = tallyMerge ((f₁.map (fileDelta env root)).foldr tallyMerge zeroTally)
          ((f₂.map (fileDelta env root)).foldr tallyMerge zeroTally) := by
    simp only [entryDelta, hnig, Bool.false_eq_true, if_false]
    exact foldr_tallyMerge_map_append _ f₁ f₂
  rw [h1, h2]
  exact tallyMerge_shuffle _ _ _ _ _

theorem size_mismatch_single_skip_witness :
    (classify "out" "a.ydr" = .stream ∨ classify "out" "a.ydr" = .data) ∧
    envM.mismatch (joinPath "out" "a.ydr") = true ∧
    (move_files envM ⟨[], []⟩
        ([] ++ ("out", [] ++ "a.ydr" :: ["c.yft"]) :: [("out2", ["b.meta"])])).2
      = tallyMerge (move_files envM ⟨[], []⟩
          ([] ++ ("out", [] ++ ["c.yft"]) :: [("out2", ["b.meta"])])).2 ⟨0, 0, 1⟩ :=
  ⟨Or.inl (by decide), by decide,
   size_mismatch_single_skip envM ⟨[], []⟩ "out" "a.ydr" []
     [("out2", ["b.meta"])] [] ["c.yft"] (Or.inl (by decide)) (by decide)⟩

/-- C7: for a successfully decoded container, the absorbed list it
returns is exactly the concatenation, in discovery order, of each
nested container's contribution, and a nested container contributes
(its path followed by everything it recorded) if and only if the move
result it returned counted at least one stream or data file — a
nested call that moved nothing into either bucket is never
recorded. -/
theorem absorbed_iff_positive_tally :
    ∀ (env : Env) (p : String) (walk : List (String × List String))
      (ns : List RpfNode) (st : FSState) (b : Bool),
      (extract_rpf_recursive env (.mk p (.ok walk) ns) st b).absorbed
        = (ns.map (childAbs env)).flatten := by
  intro env p walk ns st b
  rw [(extract_char env (.mk p (.ok walk) ns) st b).2]
  simp only [nodeAbs]
  exact listAbs_eq_flatten env ns

/-- C8: merging tallies is field-wise addition of the three counts,
is associative and commutative, and the absorbed-container sequences
accumulated by the nested-extraction loop are concatenated onto the
caller's list preserving discovery order. -/
theorem tally_merge_algebra :
    (∀ a b : MoveTally, tallyMerge a b
        = ⟨a.stream + b.stream, a.data + b.data, a.skipped + b.skipped⟩) ∧
    (∀ a b c : MoveTally,
        tallyMerge (tallyMerge a b) c = tallyMerge a (tallyMerge b c)) ∧
    (∀ a b : MoveTally, tallyMerge a b = tallyMerge b a) ∧
    (∀ (env : Env) (ns : List RpfNode) (st : FSState) (t : MoveTally)
        (acc : List String),
        (extractNested env ns st t acc).2.2 = acc ++ listAbs env ns) :=
  ⟨fun _ _ => rfl, tallyMerge_assoc, tallyMerge_comm,
   fun env ns st t acc => (extractNested_char env ns st t acc).2⟩

/-- C9: the extension used for classification is the lowercased
substring after the last dot of the file name, and a dotless name is
its own extension once lowercased; consequently a dotless file named
meta is classified Data, one named yft is classified Stream, and one
named rpf is skipped as a container. -/
theorem extension_after_last_dot :
    (∀ f : String, '.' ∉ f.data → extOf f = lowerStr f) ∧
    (∀ s t : String, '.' ∉ t.data → extOf (s ++ "." ++ t) = lowerStr t) ∧
    classify "out" "meta" = .data ∧
    classify "out" "yft" = .stream ∧
    classify "out" "rpf" = .skippedContainer :=
  ⟨extOf_of_no_dot, extOf_append_dot, by decide, by decide, by decide⟩

theorem extension_after_last_dot_witness :
    ('.' ∉ ("Meta" : String).data) ∧ extOf "Meta" = lowerStr "Meta" ∧
    ('.' ∉ ("Ydr" : String).data) ∧ extOf ("x" ++ "." ++ "Ydr") = lowerStr "Ydr" :=
  ⟨by decide, extension_after_last_dot.1 "Meta" (by decide),
   by decide, extension_after_last_dot.2.1 "x" "Ydr" (by decide)⟩

/-- C10: when the post-copy size check fails, the destination file
that was already written into the bucket stays there — the error path
appends the resolved name to the bucket and only bumps the skip
counter, with no deletion or rollback — so a bucket can contain a
corrupt copy of a file whose processing was counted as skipped. -/
theorem corrupt_copy_left_in_bucket :
    ∀ (env : Env) (st : FSState) (t : MoveTally) (root file : String),
      env.mismatch (joinPath root file) = true →
      (classify root file = .stream →
        processFile env root (st, t) file
          = (⟨st.streamFiles ++ [resolveDestName st.streamFiles file],
              st.dataFiles⟩,
             ⟨t.stream, t.data, t.skipped + 1⟩)) ∧
      (classify root file = .data →
        processFile env root (st, t) file
          = (⟨st.streamFiles,
              st.dataFiles ++ [resolveDestName st.dataFiles file]⟩,
             ⟨t.stream, t.data, t.skipped + 1⟩)) := by
  intro env st t root file hm
  constructor
  · intro h
    obtain ⟨_, h2, h3⟩ := classify_stream_elim root file h
    cases st
    cases t
    simp only [processFile]
    split_ifs
    all_goals simp_all
  · intro h
    obtain ⟨_, h2, h3, h4⟩ := classify_data_elim root file h
    cases st
    cases t
    simp only [processFile]
    split_ifs
    all_goals simp_all

theorem corrupt_copy_left_in_bucket_witness :
    envM.mismatch (joinPath "out" "a.ydr") = true ∧
    classify "out" "a.ydr" = .stream ∧
    processFile envM "out" (⟨["a.ydr"], []⟩, zeroTally) "a.ydr"
      = (⟨["a.ydr"] ++ [resolveDestName ["a.ydr"] "a.ydr"], []⟩,
         ⟨zeroTally.stream, zeroTally.data, zeroTally.skipped + 1⟩) :=
  ⟨by decide, by decide,
   (corrupt_copy_left_in_bucket envM ⟨["a.ydr"], []⟩ zeroTally "out" "a.ydr"
     (by decide)).1 (by decide)⟩
